import Mathlib

/-!
Verification development for the pysiss / pyboreholes repository.

The depth arithmetic of the repository works on numpy arrays of real
numbers; here depths are embedded as rational numbers (`ℚ`) and arrays as
lists.  Each definition below translates one Python function of the
repository; doc comments name the translated function.  Error values
raised by the Python code are embedded as an explicit error type carried
by `Except`.
-/

/-- The exceptions the embedded code can raise.  `assertionError` carries
the message of a failed `assert` statement; `valueError` carries the
message of an explicit `raise ValueError(...)`; `gradientShapeError`
stands for the exception `numpy.gradient` raises on an array with fewer
than two elements (the concrete exception class and message vary with the
numpy version, so it is kept abstract); `attributeError` stands for an
`AttributeError` raised when a missing attribute is accessed. -/
inductive PyErr where
  | assertionError (msg : String)
  | valueError (msg : String)
  | gradientShapeError
  | attributeError (msg : String)
deriving DecidableEq, Repr

/-- Equality of embedded results is decidable, so concrete runs of the
embedded code can be checked by `decide`. -/
instance {ε α : Type} [DecidableEq ε] [DecidableEq α] : DecidableEq (Except ε α) :=
  fun x y =>
    match x, y with
    | .ok a, .ok b =>
      if h : a = b then isTrue (by rw [h])
      else isFalse (fun hh => by cases hh; exact h rfl)
    | .error a, .error b =>
      if h : a = b then isTrue (by rw [h])
      else isFalse (fun hh => by cases hh; exact h rfl)
    | .ok _, .error _ => isFalse (fun hh => by cases hh)
    | .error _, .ok _ => isFalse (fun hh => by cases hh)

/-- `numpy.gradient` on a one-dimensional array (default edge order):
one-sided differences at the two edges, central differences inside.
`numpy.gradient` raises on arrays with fewer than two elements, embedded
here as `none`. -/
def npGradient (xs : List ℚ) : Option (List ℚ) :=
  if xs.length < 2 then none
  else some ((List.range xs.length).map (fun i =>
    if i = 0 then xs.getD 1 0 - xs.getD 0 0
    else if i = xs.length - 1 then
      xs.getD (xs.length - 1) 0 - xs.getD (xs.length - 2) 0
    else (xs.getD (i + 1) 0 - xs.getD (i - 1) 0) / 2))

/-- `pyboreholes.domains.IntervalDomain`: the fields stored by
`Domain.__init__` (name and size; `domain.py` is not under src/, and per
the spec the base class is a named container holding a mapping from
property name to values aligned with the domain index) together with the
fields stored by `IntervalDomain.__init__`.  A property is embedded as a
name paired with its list of values. -/
structure IntervalDomain where
  name : String
  size : Nat
  from_depths : List ℚ
  to_depths : List ℚ
  properties : List (String × List ℚ)
deriving DecidableEq, Repr

/-- `IntervalDomain.__init__`: runs the base constructor, then the five
checks in source order — the length assert, the two
`all(numpy.gradient(...) > 0)` asserts (where `numpy.gradient` itself
raises first on arrays of fewer than two elements), the positive-length
assert on `to_depths - from_depths`, and the overlap assert on
`to_depths[:-1] <= from_depths[1:]`. -/
def mkIntervalDomain (name : String) (from_depths to_depths : List ℚ) :
    Except PyErr IntervalDomain :=
  if from_depths.length ≠ to_depths.length then
    .error (.assertionError "from_ and to_depths must be same length")
  else if npGradient from_depths = none then
    .error .gradientShapeError
  else if ¬ (((npGradient from_depths).getD []).all fun v => decide (0 < v)) then
    .error (.assertionError "from_depths must be monotonically increasing")
  else if npGradient to_depths = none then
    .error .gradientShapeError
  else if ¬ (((npGradient to_depths).getD []).all fun v => decide (0 < v)) then
    .error (.assertionError "to_depths must be monotonically increasing")
  else if ¬ ((List.zipWith (fun t f => t - f) to_depths from_depths).all
      fun v => decide (0 < v)) then
    .error (.assertionError "intervals must have positive length")
  else if ¬ ((to_depths.dropLast.zip from_depths.tail).all
      fun p => decide (p.1 ≤ p.2)) then
    .error (.assertionError "intervals must not overlap")
  else
    .ok ⟨name, from_depths.length, from_depths, to_depths, []⟩

/-- The four depth-interval invariants of the spec, on equal-length input
arrays: `from_depths` strictly increasing, `to_depths` strictly
increasing, positive interval length, and no overlap between successive
intervals. -/
def ValidInput (from_depths to_depths : List ℚ) : Prop :=
  from_depths.length = to_depths.length ∧
  List.Chain' (· < ·) from_depths ∧
  List.Chain' (· < ·) to_depths ∧
  (∀ p ∈ from_depths.zip to_depths, p.1 < p.2) ∧
  (∀ p ∈ to_depths.dropLast.zip from_depths.tail, p.1 ≤ p.2)

/-- A `Decidable` instance for chains of rationals that the kernel can
evaluate (the library instance is built by tactics and does not reduce). -/
instance (priority := 10000) ratChainDecidable : ∀ (a : ℚ) (l : List ℚ),
    Decidable (List.Chain (· < ·) a l)
  | _, [] => isTrue List.Chain.nil
  | a, b :: bs =>
    haveI := ratChainDecidable b bs
    decidable_of_iff (a < b ∧ List.Chain (· < ·) b bs) List.chain_cons.symm

instance (priority := 10000) ratChainDecidable' :
    (l : List ℚ) → Decidable (List.Chain' (· < ·) l)
  | [] => isTrue trivial
  | a :: l => ratChainDecidable a l

instance (f t : List ℚ) : Decidable (ValidInput f t) :=
  haveI h1 : Decidable (List.Chain' (· < ·) f) := ratChainDecidable' f
  haveI h2 : Decidable (List.Chain' (· < ·) t) := ratChainDecidable' t
  inferInstanceAs (Decidable (f.length = t.length ∧
    List.Chain' (· < ·) f ∧
    List.Chain' (· < ·) t ∧
    (∀ p ∈ f.zip t, p.1 < p.2) ∧
    (∀ p ∈ t.dropLast.zip f.tail, p.1 ≤ p.2)))

theorem getD_eq_getElem_q {l : List ℚ} {n : Nat} (h : n < l.length) :
    l.getD n 0 = l[n] := by
  simp [List.getD_eq_getElem?_getD, List.getElem?_eq_getElem h]

theorem all_decide_iff {α : Type} {l : List α} {P : α → Prop} [DecidablePred P] :
    (l.all fun x => decide (P x)) = true ↔ ∀ x ∈ l, P x := by
  simp

theorem chain'_lt_getElem {l : List ℚ} (h : List.Chain' (· < ·) l) {i : Nat}
    (hi : i + 1 < l.length) : l[i] < l[i + 1] := by
  have h1 := List.chain'_iff_get.mp h i (by omega)
  simpa [List.get_eq_getElem] using h1

theorem chain'_lt_getElem_trans {l : List ℚ} (h : List.Chain' (· < ·) l) {i j : Nat}
    (hij : i < j) (hj : j < l.length) : l[i] < l[j] := by
  induction j with
  | zero => omega
  | succ k ih =>
    rcases Nat.lt_succ_iff_lt_or_eq.mp hij with hik | hik
    · exact lt_trans (ih hik (by omega)) (chain'_lt_getElem h hj)
    · subst hik; exact chain'_lt_getElem h hj

theorem zip_all_getElem {a b : List ℚ} {P : ℚ → ℚ → Prop}
    (h : ∀ p ∈ a.zip b, P p.1 p.2) {i : Nat} (ha : i < a.length) (hb : i < b.length) :
    P a[i] b[i] := by
  have hz : i < (a.zip b).length := by simp [List.length_zip]; omega
  have hm := h ((a.zip b)[i]) (List.getElem_mem hz)
  simpa [List.getElem_zip] using hm

theorem forall_zip_getElem {a b : List ℚ} {P : ℚ → ℚ → Prop}
    (h : ∀ (i : Nat), i < a.length → i < b.length → P (a.getD i 0) (b.getD i 0)) :
    ∀ p ∈ a.zip b, P p.1 p.2 := by
  intro p hp
  rcases List.mem_iff_getElem.mp hp with ⟨i, hi, hp'⟩
  have hia : i < a.length := by simp [List.length_zip] at hi; omega
  have hib : i < b.length := by simp [List.length_zip] at hi; omega
  have : p = (a[i], b[i]) := by rw [← hp']; simp [List.getElem_zip]
  rw [this]
  have := h i hia hib
  rwa [getD_eq_getElem_q hia, getD_eq_getElem_q hib] at this

theorem zipWith_sub_all_pos {f t : List ℚ} (h : ∀ p ∈ f.zip t, p.1 < p.2) :
    ((List.zipWith (fun a b => a - b) t f).all fun v => decide (0 < v)) = true := by
  induction f generalizing t with
  | nil => cases t <;> simp
  | cons x xs ih =>
    cases t with
    | nil => simp
    | cons y ys =>
      simp only [List.zip_cons_cons, List.mem_cons, forall_eq_or_imp] at h
      simp only [List.zipWith_cons_cons, List.all_cons, Bool.and_eq_true,
        decide_eq_true_eq]
      exact ⟨sub_pos.mpr h.1, ih h.2⟩

theorem zip_lt_of_zipWith_sub {f t : List ℚ}
    (h : ((List.zipWith (fun a b => a - b) t f).all fun v => decide (0 < v)) = true) :
    ∀ p ∈ f.zip t, p.1 < p.2 := by
  induction f generalizing t with
  | nil => simp
  | cons x xs ih =>
    cases t with
    | nil => simp
    | cons y ys =>
      simp only [List.zipWith_cons_cons, List.all_cons, Bool.and_eq_true,
        decide_eq_true_eq] at h
      simp only [List.zip_cons_cons, List.mem_cons, forall_eq_or_imp]
      exact ⟨sub_pos.mp h.1, ih h.2⟩

theorem npGradient_length_ge_two {l : List ℚ} {g : List ℚ}
    (h : npGradient l = some g) : 2 ≤ l.length := by
  unfold npGradient at h
  by_cases h2 : l.length < 2
  · rw [if_pos h2] at h; cases h
  · omega

theorem npGradient_all_pos {l : List ℚ} (h2 : 2 ≤ l.length)
    (hc : List.Chain' (· < ·) l) :
    npGradient l = some ((List.range l.length).map (fun i =>
      if i = 0 then l.getD 1 0 - l.getD 0 0
      else if i = l.length - 1 then
        l.getD (l.length - 1) 0 - l.getD (l.length - 2) 0
      else (l.getD (i + 1) 0 - l.getD (i - 1) 0) / 2)) ∧
    (((List.range l.length).map (fun i =>
      if i = 0 then l.getD 1 0 - l.getD 0 0
      else if i = l.length - 1 then
        l.getD (l.length - 1) 0 - l.getD (l.length - 2) 0
      else (l.getD (i + 1) 0 - l.getD (i - 1) 0) / 2)).all
        fun v => decide (0 < v)) = true := by
  constructor
  · unfold npGradient
    rw [if_neg (by omega)]
  · rw [List.all_eq_true]
    intro v hv
    rw [List.mem_map] at hv
    obtain ⟨i, hi, rfl⟩ := hv
    rw [List.mem_range] at hi
    rw [decide_eq_true_eq]
    by_cases h0 : i = 0
    · subst h0
      rw [if_pos rfl, getD_eq_getElem_q (by omega), getD_eq_getElem_q (by omega)]
      exact sub_pos.mpr (chain'_lt_getElem hc (by omega))
    · rw [if_neg h0]
      by_cases hlast : i = l.length - 1
      · rw [if_pos hlast,
          getD_eq_getElem_q (show l.length - 1 < l.length by omega),
          getD_eq_getElem_q (show l.length - 2 < l.length by omega)]
        have hadj : l[l.length - 2] < l[l.length - 2 + 1] :=
          chain'_lt_getElem hc (by omega)
        have heq : l.length - 2 + 1 = l.length - 1 := by omega
        simp only [heq] at hadj
        exact sub_pos.mpr hadj
      · rw [if_neg hlast,
          getD_eq_getElem_q (show i + 1 < l.length by omega),
          getD_eq_getElem_q (show i - 1 < l.length by omega)]
        have hstep : l[i - 1] < l[i + 1] :=
          chain'_lt_getElem_trans hc (by omega) (by omega)
        have h2pos : (0:ℚ) < 2 := by norm_num
        exact div_pos (sub_pos.mpr hstep) h2pos

theorem mk_ok_of_valid (name : String) {f t : List ℚ} (hv : ValidInput f t)
    (h2 : 2 ≤ f.length) :
    mkIntervalDomain name f t = .ok ⟨name, f.length, f, t, []⟩ := by
  obtain ⟨hlen, hcf, hct, hpos, hov⟩ := hv
  obtain ⟨hgf, hgfpos⟩ := npGradient_all_pos h2 hcf
  obtain ⟨hgt, hgtpos⟩ := npGradient_all_pos (hlen ▸ h2) hct
  unfold mkIntervalDomain
  rw [if_neg (by omega),
    if_neg (by rw [hgf]; simp),
    if_neg (by rw [hgf]; simpa using hgfpos),
    if_neg (by rw [hgt]; simp),
    if_neg (by rw [hgt]; simpa using hgtpos),
    if_neg (by simpa using zipWith_sub_all_pos hpos),
    if_neg (by
      simpa using (all_decide_iff (P := fun p : ℚ × ℚ => p.1 ≤ p.2)).mpr hov)]

theorem valid_of_mk_ok {name : String} {f t : List ℚ} {d : IntervalDomain}
    (h : mkIntervalDomain name f t = .ok d) :
    d = ⟨name, f.length, f, t, []⟩ ∧ ValidInput f t ∧ 2 ≤ f.length := by
  unfold mkIntervalDomain at h
  split_ifs at h with h1 h2g h3 h4g h4 h5 h6
  all_goals try cases h
  push_neg at h1 h5 h6
  rcases hgf : npGradient f with _ | g
  · exact absurd hgf h2g
  have hlen2 : 2 ≤ f.length := npGradient_length_ge_two hgf
  have hpos : ∀ p ∈ f.zip t, p.1 < p.2 := zip_lt_of_zipWith_sub h5
  have hov : ∀ p ∈ t.dropLast.zip f.tail, p.1 ≤ p.2 :=
    (all_decide_iff (P := fun p : ℚ × ℚ => p.1 ≤ p.2)).mp h6
  have hovIdx : ∀ (i : Nat) (hi : i + 1 < f.length),
      t[i] ≤ f[i + 1] := by
    intro i hi
    have h1d : i < t.dropLast.length := by
      rw [List.length_dropLast]; omega
    have h2d : i < f.tail.length := by
      rw [List.length_tail]; omega
    have := zip_all_getElem hov h1d h2d
    rwa [List.getElem_dropLast, List.getElem_tail] at this
  have hposIdx : ∀ (i : Nat) (hi : i < f.length),
      f[i] < t[i] :=
    fun i hi => zip_all_getElem hpos hi (by omega)
  have hcf : List.Chain' (· < ·) f := by
    rw [List.chain'_iff_get]
    intro i hi
    simp only [List.get_eq_getElem]
    exact lt_of_lt_of_le (hposIdx i (by omega)) (hovIdx i (by omega))
  have hct : List.Chain' (· < ·) t := by
    rw [List.chain'_iff_get]
    intro i hi
    simp only [List.get_eq_getElem]
    exact lt_of_le_of_lt (hovIdx i (by omega)) (hposIdx (i + 1) (by omega))
  exact ⟨rfl, ⟨h1, hcf, hct, hpos, hov⟩, hlen2⟩

theorem npGradient_none_iff {l : List ℚ} : npGradient l = none ↔ l.length < 2 := by
  unfold npGradient
  split_ifs with h <;> simp [h]

/-- The checks `IntervalDomain.__init__` performs, written as a table in
evaluation order: each entry pairs the condition under which the check
fails with the error it then raises.  The monotonicity positions carry,
first, the failure `numpy.gradient` itself raises on an array of fewer
than two elements, and then the failed positivity assert on the gradient
array. -/
def constructionChecks (f t : List ℚ) : List (Bool × PyErr) :=
  [ (decide (f.length ≠ t.length),
      .assertionError "from_ and to_depths must be same length"),
    (decide (f.length < 2), .gradientShapeError),
    (decide (¬ (((npGradient f).getD []).all fun v => decide (0 < v)) = true),
      .assertionError "from_depths must be monotonically increasing"),
    (decide (t.length < 2), .gradientShapeError),
    (decide (¬ (((npGradient t).getD []).all fun v => decide (0 < v)) = true),
      .assertionError "to_depths must be monotonically increasing"),
    (decide (¬ ((List.zipWith (fun a b => a - b) t f).all
      fun v => decide (0 < v)) = true),
      .assertionError "intervals must have positive length"),
    (decide (¬ ((t.dropLast.zip f.tail).all fun p => decide (p.1 ≤ p.2)) = true),
      .assertionError "intervals must not overlap") ]

/-- The error of the first failing check of the table, or `none` when
every check passes. -/
def firstFailingCheck (f t : List ℚ) : Option PyErr :=
  ((constructionChecks f t).find? (fun c => c.1)).map (fun c => c.2)

/-- C1 (amended): construction either succeeds — and then every listed
invariant holds, strict monotonicity of both depth arrays included — or
fails with the error of the first failing check, the checks running in
the order: length mismatch, gradient shape for the starts, non-positive
gradient for the starts, gradient shape for the ends, non-positive
gradient for the ends, non-positive interval length, overlap.  The
gradient positivity test is weaker than strict monotonicity, so the
reported invariant can come later in the listed order than the first
violated one, and arrays of fewer than two intervals are rejected by the
gradient computation even when every invariant holds. -/
theorem mk_reports_first_failing_check (name : String) (f t : List ℚ) :
    (∀ d, mkIntervalDomain name f t = .ok d →
      d = ⟨name, f.length, f, t, []⟩ ∧ ValidInput f t) ∧
    (∀ e, mkIntervalDomain name f t = .error e ↔ firstFailingCheck f t = some e) := by
  constructor
  · intro d hd
    exact ⟨(valid_of_mk_ok hd).1, (valid_of_mk_ok hd).2.1⟩
  · intro e
    unfold mkIntervalDomain
    split_ifs with h1 h2g h3 h4g h4 h5 h6
    · rw [show firstFailingCheck f t =
          some (PyErr.assertionError "from_ and to_depths must be same length") from by
        unfold firstFailingCheck constructionChecks
        rw [decide_eq_true h1]
        rfl]
      simp
    · rw [show firstFailingCheck f t = some PyErr.gradientShapeError from by
        unfold firstFailingCheck constructionChecks
        rw [decide_eq_false h1, decide_eq_true (npGradient_none_iff.mp h2g)]
        rfl]
      simp
    · rw [show firstFailingCheck f t = some PyErr.gradientShapeError from by
        unfold firstFailingCheck constructionChecks
        rw [decide_eq_false h1,
          decide_eq_false (fun hh => h2g (npGradient_none_iff.mpr hh)),
          decide_eq_false (fun hh => hh h3),
          decide_eq_true (npGradient_none_iff.mp h4g)]
        rfl]
      simp
    · rw [show firstFailingCheck f t = none from by
        unfold firstFailingCheck constructionChecks
        rw [decide_eq_false h1,
          decide_eq_false (fun hh => h2g (npGradient_none_iff.mpr hh)),
          decide_eq_false (fun hh => hh h3),
          decide_eq_false (fun hh => h4g (npGradient_none_iff.mpr hh)),
          decide_eq_false (fun hh => hh h4),
          decide_eq_false (fun hh => hh h5),
          decide_eq_false (fun hh => hh h6)]
        rfl]
      simp
    · rw [show firstFailingCheck f t =
          some (PyErr.assertionError "intervals must not overlap") from by
        unfold firstFailingCheck constructionChecks
        rw [decide_eq_false h1,
          decide_eq_false (fun hh => h2g (npGradient_none_iff.mpr hh)),
          decide_eq_false (fun hh => hh h3),
          decide_eq_false (fun hh => h4g (npGradient_none_iff.mpr hh)),
          decide_eq_false (fun hh => hh h4),
          decide_eq_false (fun hh => hh h5),
          decide_eq_true h6]
        rfl]
      simp
    · rw [show firstFailingCheck f t =
          some (PyErr.assertionError "intervals must have positive length") from by
        unfold firstFailingCheck constructionChecks
        rw [decide_eq_false h1,
          decide_eq_false (fun hh => h2g (npGradient_none_iff.mpr hh)),
          decide_eq_false (fun hh => hh h3),
          decide_eq_false (fun hh => h4g (npGradient_none_iff.mpr hh)),
          decide_eq_false (fun hh => hh h4),
          decide_eq_true h5]
        rfl]
      simp
    · rw [show firstFailingCheck f t =
          some (PyErr.assertionError "to_depths must be monotonically increasing") from by
        unfold firstFailingCheck constructionChecks
        rw [decide_eq_false h1,
          decide_eq_false (fun hh => h2g (npGradient_none_iff.mpr hh)),
          decide_eq_false (fun hh => hh h3),
          decide_eq_false (fun hh => h4g (npGradient_none_iff.mpr hh)),
          decide_eq_true h4]
        rfl]
      simp
    · rw [show firstFailingCheck f t =
          some (PyErr.assertionError "from_depths must be monotonically increasing") from by
        unfold firstFailingCheck constructionChecks
        rw [decide_eq_false h1,
          decide_eq_false (fun hh => h2g (npGradient_none_iff.mpr hh)),
          decide_eq_true h3]
        rfl]
      simp

/-- C1 witness: at the valid two-interval input the success alternative
applies, and at the valid one-interval input the first failing check is
the gradient-shape failure. -/
theorem mk_reports_first_failing_check_inst :
    ValidInput [(0:ℚ), 2] [1, 3] ∧
    firstFailingCheck [(0:ℚ)] [1] = some .gradientShapeError := by
  constructor
  · exact ((mk_reports_first_failing_check "a" [0, 2] [1, 3]).1
      ⟨"a", 2, [0, 2], [1, 3], []⟩ (by with_unfolding_all decide)).2
  · exact ((mk_reports_first_failing_check "a" [0] [1]).2 .gradientShapeError).mp
      (by with_unfolding_all decide)

/-- C1 counterexample: on `from_depths [0, 2, 1, 3]`, `to_depths
[1, 3, 2, 4]` the first violated invariant in the listed order is the
strict increase of `from_depths` (the second invariant), yet construction
reports the overlap invariant (the last one), because the
gradient-positivity check accepts this non-monotonic array. -/
theorem mk_order_refuted :
    ¬ List.Chain' (· < ·) [(0:ℚ), 2, 1, 3] ∧
    mkIntervalDomain "c" [0, 2, 1, 3] [1, 3, 2, 4] =
      .error (.assertionError "intervals must not overlap") := by
  with_unfolding_all decide

/-- C2 (amended): every valid input of at least two intervals constructs
successfully and round-trips both depth arrays unchanged; a valid input
of fewer than two intervals fails construction, because `numpy.gradient`
rejects arrays of fewer than two elements. -/
theorem valid_construction_roundtrip (name : String) (f t : List ℚ)
    (hv : ValidInput f t) (h2 : 2 ≤ f.length) :
    mkIntervalDomain name f t = .ok ⟨name, f.length, f, t, []⟩ ∧
    ∀ f2 t2 : List ℚ, ValidInput f2 t2 → f2.length < 2 →
      mkIntervalDomain name f2 t2 = .error .gradientShapeError := by
  refine ⟨mk_ok_of_valid name hv h2, ?_⟩
  intro f2 t2 hv2 hlt
  obtain ⟨hl2, _⟩ := hv2
  unfold mkIntervalDomain
  rw [if_neg (by omega), if_pos (npGradient_none_iff.mpr hlt)]

/-- C2 witness: the theorem applied to the valid two-interval input
`[0, 2] [1, 3]`, whose second alternative is then instantiated at the
valid one-interval input `[0] [1]`. -/
theorem valid_construction_roundtrip_inst :
    mkIntervalDomain "w2" [0, 2] [1, 3] = .ok ⟨"w2", 2, [0, 2], [1, 3], []⟩ ∧
    mkIntervalDomain "w2" [0] [1] = .error .gradientShapeError := by
  have h := valid_construction_roundtrip "w2" [0, 2] [1, 3]
    (by with_unfolding_all decide) (by decide)
  exact ⟨h.1, h.2 [0] [1] (by with_unfolding_all decide) (by decide)⟩

/-- C2 counterexample: the one-interval input `[0] [1]` satisfies every
invariant of the claim, yet construction does not succeed — it raises
from inside the monotonicity check. -/
theorem singleton_valid_construction_fails :
    ValidInput [(0:ℚ)] [1] ∧
    mkIntervalDomain "d" [0] [1] = .error .gradientShapeError := by
  with_unfolding_all decide

/-- The index selection of `IntervalDomain.get_interval`:
`numpy.where(logical_and(self.from_depths >= from_depth,
self.to_depths <= to_depth))`, the indices carrying both conditions in
ascending order. -/
def maskIndices (d : IntervalDomain) (from_depth to_depth : ℚ) : List Nat :=
  (List.range d.from_depths.length).filter
    (fun i => decide (from_depth ≤ d.from_depths.getD i 0) &&
      decide (d.to_depths.getD i 0 ≤ to_depth))

/-- `Domain.add_property`.  Modelled from the spec: `domain.py` is not
under src/; per the data model every property of a domain holds one value
per domain index, so adding a property checks that alignment and stores
the named value array. -/
def add_property (d : IntervalDomain) (pname : String) (values : List ℚ) :
    Except PyErr IntervalDomain :=
  if values.length = d.size then
    .ok { d with properties := d.properties ++ [(pname, values)] }
  else
    .error (.assertionError "property values must be the same length as the domain")

/-- The property loop of `get_interval`: each source property is added to
the new domain with its values subset by the same index list. -/
def addMaskedProps (idxs : List Nat) :
    IntervalDomain → List (String × List ℚ) → Except PyErr IntervalDomain
  | nd, [] => .ok nd
  | nd, p :: rest =>
    match add_property nd p.1 (idxs.map (fun i => p.2.getD i 0)) with
    | .ok nd2 => addMaskedProps idxs nd2 rest
    | .error e => .error e

/-- `IntervalDomain.get_interval`: builds the default sub-domain name when
none is passed, selects the indices of the intervals fully contained in
the query range, constructs a new `IntervalDomain` from the selected
depths, and copies every property through the same index mask. -/
def get_interval (d : IntervalDomain) (from_depth to_depth : ℚ)
    (domain_name : Option String) : Except PyErr IntervalDomain :=
  let dname := domain_name.getD
    (d.name ++ ": subdomain " ++ toString from_depth ++ " to " ++ toString to_depth)
  let indices := maskIndices d from_depth to_depth
  match mkIntervalDomain dname (indices.map (fun i => d.from_depths.getD i 0))
      (indices.map (fun i => d.to_depths.getD i 0)) with
  | .error e => .error e
  | .ok newdom => addMaskedProps indices newdom d.properties

/-- A constructed interval domain carrying properties: the depth arrays
satisfy the construction invariants, the stored size is the interval
count, and every property is aligned with it. -/
def Valid (d : IntervalDomain) : Prop :=
  ValidInput d.from_depths d.to_depths ∧ 2 ≤ d.from_depths.length ∧
  d.size = d.from_depths.length ∧ ∀ p ∈ d.properties, p.2.length = d.size

instance (d : IntervalDomain) : Decidable (Valid d) :=
  inferInstanceAs (Decidable (ValidInput _ _ ∧ _ ∧ _ ∧ _))

theorem valid_to_le_from {d : IntervalDomain} (hd : Valid d) {i j : Nat}
    (hij : i < j) (hj : j < d.from_depths.length) :
    d.to_depths.getD i 0 ≤ d.from_depths.getD j 0 := by
  obtain ⟨⟨hlen, hcf, _, hpos, hov⟩, _, _, _⟩ := hd
  have hov1 : d.to_depths.getD i 0 ≤ d.from_depths.getD (i + 1) 0 := by
    have h1d : i < d.to_depths.dropLast.length := by
      rw [List.length_dropLast]; omega
    have h2d : i < d.from_depths.tail.length := by
      rw [List.length_tail]; omega
    have := zip_all_getElem hov h1d h2d
    rw [List.getElem_dropLast, List.getElem_tail] at this
    rw [getD_eq_getElem_q (by omega), getD_eq_getElem_q (by omega)]
    exact this
  rcases Nat.lt_or_ge (i + 1) j with hj1 | hj1
  · refine le_trans hov1 ?_
    rw [getD_eq_getElem_q (by omega), getD_eq_getElem_q (by omega)]
    exact le_of_lt (chain'_lt_getElem_trans hcf hj1 hj)
  · have : i + 1 = j := by omega
    rwa [this] at hov1

theorem maskIndices_pairwise (d : IntervalDomain) (a b : ℚ) :
    List.Pairwise (· < ·) (maskIndices d a b) :=
  List.Pairwise.filter _ (List.pairwise_lt_range _)

theorem maskIndices_mem {d : IntervalDomain} {a b : ℚ} {i : Nat}
    (h : i ∈ maskIndices d a b) :
    i < d.from_depths.length ∧ a ≤ d.from_depths.getD i 0 ∧
      d.to_depths.getD i 0 ≤ b := by
  unfold maskIndices at h
  rw [List.mem_filter] at h
  obtain ⟨hr, hc⟩ := h
  rw [List.mem_range] at hr
  simp only [Bool.and_eq_true, decide_eq_true_eq] at hc
  exact ⟨hr, hc.1, hc.2⟩

theorem mem_maskIndices {d : IntervalDomain} {a b : ℚ} {i : Nat}
    (hi : i < d.from_depths.length) (h1 : a ≤ d.from_depths.getD i 0)
    (h2 : d.to_depths.getD i 0 ≤ b) : i ∈ maskIndices d a b := by
  unfold maskIndices
  rw [List.mem_filter, List.mem_range]
  simp only [Bool.and_eq_true, decide_eq_true_eq]
  exact ⟨hi, h1, h2⟩

theorem sub_valid {d : IntervalDomain} (hd : Valid d) {idxs : List Nat}
    (hpw : List.Pairwise (· < ·) idxs)
    (hbound : ∀ i ∈ idxs, i < d.from_depths.length) :
    ValidInput (idxs.map (fun i => d.from_depths.getD i 0))
      (idxs.map (fun i => d.to_depths.getD i 0)) := by
  have hparts := hd
  obtain ⟨⟨hlen, hcf, hct, hpos, hov⟩, _, _, _⟩ := hparts
  have hb : ∀ (k : Nat) (hk : k < idxs.length), idxs[k] < d.from_depths.length :=
    fun k hk => hbound idxs[k] (List.getElem_mem hk)
  have hstep : ∀ (k : Nat) (hk : k + 1 < idxs.length),
      idxs[k] < idxs[k + 1] :=
    fun k hk =>
      List.pairwise_iff_getElem.mp hpw k (k + 1) (by omega) hk (by omega)
  refine ⟨by simp, ?_, ?_, ?_, ?_⟩
  · rw [List.chain'_iff_get]
    intro k hk
    rw [List.length_map] at hk
    simp only [List.get_eq_getElem, List.getElem_map]
    rw [getD_eq_getElem_q (hb k (by omega)),
      getD_eq_getElem_q (hb (k + 1) (by omega))]
    exact chain'_lt_getElem_trans hcf (hstep k (by omega)) (hb (k + 1) (by omega))
  · rw [List.chain'_iff_get]
    intro k hk
    rw [List.length_map] at hk
    simp only [List.get_eq_getElem, List.getElem_map]
    rw [getD_eq_getElem_q (show idxs[k] < d.to_depths.length by
        rw [← hlen]; exact hb k (by omega)),
      getD_eq_getElem_q (show idxs[k + 1] < d.to_depths.length by
        rw [← hlen]; exact hb (k + 1) (by omega))]
    exact chain'_lt_getElem_trans hct (hstep k (by omega))
      (by rw [← hlen]; exact hb (k + 1) (by omega))
  · refine forall_zip_getElem ?_
    intro k hk1 hk2
    have hkl : k < idxs.length := by
      rw [List.length_map] at hk1; exact hk1
    rw [getD_eq_getElem_q hk1, getD_eq_getElem_q hk2]
    simp only [List.getElem_map]
    rw [getD_eq_getElem_q (hb k hkl),
      getD_eq_getElem_q (show idxs[k] < d.to_depths.length by
        rw [← hlen]; exact hb k hkl)]
    exact zip_all_getElem hpos (hb k hkl)
      (by rw [← hlen]; exact hb k hkl)
  · refine forall_zip_getElem ?_
    intro k hk1 hk2
    have hkl : k + 1 < idxs.length := by
      rw [List.length_dropLast, List.length_map] at hk1; omega
    rw [getD_eq_getElem_q hk1, getD_eq_getElem_q hk2]
    rw [List.getElem_dropLast, List.getElem_tail]
    simp only [List.getElem_map]
    exact valid_to_le_from hd (hstep k hkl) (hb (k + 1) hkl)

theorem addMaskedProps_ok (idxs : List Nat) :
    ∀ (props : List (String × List ℚ)) (nd : IntervalDomain),
      nd.size = idxs.length →
      addMaskedProps idxs nd props =
        .ok { nd with properties :=
          nd.properties ++ props.map (fun p => (p.1, idxs.map (fun i => p.2.getD i 0))) }
  | [], nd, _ => by simp [addMaskedProps]
  | p :: rest, nd, hsz => by
    unfold addMaskedProps add_property
    rw [if_pos (by simp [hsz])]
    exact (addMaskedProps_ok idxs rest
      { nd with properties :=
        nd.properties ++ [(p.1, idxs.map (fun i => p.2.getD i 0))] }
      (by simpa using hsz)).trans (by simp)

/-- C3 (amended): when a constructed domain has at least two intervals
fully contained in `[a, b]`, `get_interval` returns a new domain holding
exactly the intervals whose `from_depth` is at least `a` and whose
`to_depth` is at most `b` (strict containment: every selected index
satisfies both bounds, and every index satisfying both bounds is
selected), with every property subset by the same index list; when fewer
than two intervals are contained, the construction of the sub-domain
fails instead (see the counterexample), because the constructor rejects
depth arrays of fewer than two elements. -/
theorem get_interval_strict_containment (d : IntervalDomain) (a b : ℚ)
    (nm : String) (hd : Valid d) (h2 : 2 ≤ (maskIndices d a b).length) :
    get_interval d a b (some nm) = .ok
      ⟨nm, (maskIndices d a b).length,
        (maskIndices d a b).map (fun i => d.from_depths.getD i 0),
        (maskIndices d a b).map (fun i => d.to_depths.getD i 0),
        d.properties.map
          (fun p => (p.1, (maskIndices d a b).map (fun i => p.2.getD i 0)))⟩ ∧
    (∀ i ∈ maskIndices d a b,
      a ≤ d.from_depths.getD i 0 ∧ d.to_depths.getD i 0 ≤ b) ∧
    (∀ i, i < d.from_depths.length → a ≤ d.from_depths.getD i 0 →
      d.to_depths.getD i 0 ≤ b → i ∈ maskIndices d a b) := by
  refine ⟨?_, fun i hi => (maskIndices_mem hi).2,
    fun i hi h1 hb2 => mem_maskIndices hi h1 hb2⟩
  have hv := sub_valid hd (maskIndices_pairwise d a b)
    (fun i hi => (maskIndices_mem hi).1)
  have hmk := mk_ok_of_valid nm hv (by simpa using h2)
  have hfin := addMaskedProps_ok (maskIndices d a b) d.properties
    ⟨nm, ((maskIndices d a b).map (fun i => d.from_depths.getD i 0)).length,
      (maskIndices d a b).map (fun i => d.from_depths.getD i 0),
      (maskIndices d a b).map (fun i => d.to_depths.getD i 0), []⟩ (by simp)
  unfold get_interval
  simp only [Option.getD_some]
  rw [hmk]
  exact hfin.trans (by simp)

/-- C3 witness: on the three-interval domain `[(0,1),(2,3),(4,5)]` with a
property `p`, the sub-range `[0, 7/2]` fully contains the first two
intervals, and `get_interval` returns them with the property masked by
the same indices. -/
theorem get_interval_strict_containment_inst :
    get_interval ⟨"w3", 3, [0, 2, 4], [1, 3, 5], [("p", [10, 20, 30])]⟩
      0 (7/2) (some "s") =
      .ok ⟨"s", 2, [0, 2], [1, 3], [("p", [10, 20])]⟩ := by
  have h := (get_interval_strict_containment
    ⟨"w3", 3, [0, 2, 4], [1, 3, 5], [("p", [10, 20, 30])]⟩ 0 (7/2) "s"
    (by with_unfolding_all decide) (by with_unfolding_all decide)).1
  exact h.trans (by with_unfolding_all decide)

/-- C3 counterexample: on the domain `[(0,1),(2,3)]` the query `[0, 1]`
fully contains exactly one interval, and `get_interval` raises instead of
returning that one-interval domain — the claim fails as stated for every
pair `a ≤ b`. -/
theorem get_interval_single_contained_fails :
    (mkIntervalDomain "d" [0, 2] [1, 3]).bind
      (fun d => get_interval d 0 1 (some "s")) = .error .gradientShapeError := by
  with_unfolding_all decide

/-- C6 (amended): when no interval of a constructed domain is fully
contained in `[a, b]`, `get_interval` does not return an empty domain —
it fails, because the empty pair of depth arrays is rejected by the
constructor of the result (numpy.gradient raises on an array of fewer
than two elements). -/
theorem get_interval_empty_selection_raises (d : IntervalDomain) (a b : ℚ)
    (nm : Option String) (_hd : Valid d)
    (h0 : ∀ i, i < d.from_depths.length →
      ¬ (a ≤ d.from_depths.getD i 0 ∧ d.to_depths.getD i 0 ≤ b)) :
    get_interval d a b nm = .error .gradientShapeError := by
  have hmask : maskIndices d a b = [] := by
    unfold maskIndices
    rw [List.filter_eq_nil_iff]
    intro i hi
    rw [List.mem_range] at hi
    simp only [Bool.and_eq_true, decide_eq_true_eq, not_and]
    intro h1 h2
    exact h0 i hi ⟨h1, h2⟩
  unfold get_interval
  rw [hmask]
  rfl

/-- C6 witness: the theorem applied to the concrete domain
`[(0,3),(5,6)]` and the range `[10, 11]`, which contains no interval. -/
theorem get_interval_empty_selection_raises_inst :
    get_interval ⟨"ew", 2, [0, 5], [3, 6], []⟩ 10 11 (some "x") =
      .error .gradientShapeError :=
  get_interval_empty_selection_raises ⟨"ew", 2, [0, 5], [3, 6], []⟩ 10 11
    (some "x") (by with_unfolding_all decide) (by with_unfolding_all decide)

/-- C6 counterexample: on the constructed domain `[(0,2),(4,6)]` the
query `[7, 8]` contains no interval, and `get_interval` raises rather
than returning a valid domain with zero intervals. -/
theorem get_interval_empty_selection_not_ok :
    (mkIntervalDomain "e" [0, 4] [2, 6]).bind
      (fun d => get_interval d 7 8 (some "x")) = .error .gradientShapeError := by
  with_unfolding_all decide

/-- Python list indexing as used by `split_at_gaps`: a negative index
counts from the end of the list (the code only ever uses `-1` there, and
only in range for validated domains, so the out-of-range default is never
reached on the inputs of interest). -/
def pyGetQ (xs : List ℚ) (i : Int) : ℚ :=
  if i < 0 then xs.getD (xs.length - (-i).toNat) 0 else xs.getD i.toNat 0

/-- `IntervalDomain.split_at_gaps`: finds the indices where
`from_depths[1:] - to_depths[:-1]` is nonzero (`numpy.flatnonzero`),
collects the gap spans `(to_depths[idx], from_depths[idx + 1])`, prepends
`0` and appends `-1` to the gap indices, and builds one subdomain span
per adjacent pair of that list as
`(from_depths[gap_indices[idx] + 1], to_depths[gap_indices[idx + 1]])`.
Returns the pair `(subdomains, gaps)` the method returns. -/
def split_at_gaps (d : IntervalDomain) : List (ℚ × ℚ) × List (ℚ × ℚ) :=
  let n := d.from_depths.length
  let gap_indices := (List.range (n - 1)).filter
    (fun i => decide (d.from_depths.getD (i + 1) 0 - d.to_depths.getD i 0 ≠ 0))
  let gaps := gap_indices.map
    (fun i => (d.to_depths.getD i 0, d.from_depths.getD (i + 1) 0))
  let gi : List Int := (0 : Int) :: (gap_indices.map Int.ofNat ++ [(-1 : Int)])
  let subdomains := (List.range (gi.length - 1)).map (fun k =>
    (pyGetQ d.from_depths (gi.getD k 0 + 1), pyGetQ d.to_depths (gi.getD (k + 1) 0)))
  (subdomains, gaps)

/-- The gap rule exactly as the spec words it: one span
`(to_depth[i], from_depth[i + 1])` for every boundary `i` with
`to_depth[i] != from_depth[i + 1]`, in ascending boundary order. -/
def gapsByBoundary (d : IntervalDomain) : List (ℚ × ℚ) :=
  ((List.range (d.from_depths.length - 1)).filter
    (fun i => decide (d.to_depths.getD i 0 ≠ d.from_depths.getD (i + 1) 0))).map
    (fun i => (d.to_depths.getD i 0, d.from_depths.getD (i + 1) 0))

/-- C5: for every constructed domain, the gap sequence returned by
`split_at_gaps` is exactly the ordered sequence of spans
`(to_depth[i], from_depth[i + 1])` over the boundaries where
`to_depth[i]` differs from `from_depth[i + 1]` — any nonzero difference
counts, produced in one ascending pass over the `N - 1` boundaries. -/
theorem split_at_gaps_gap_rule (name : String) (f t : List ℚ)
    (d : IntervalDomain) (_h : mkIntervalDomain name f t = .ok d) :
    (split_at_gaps d).2 = gapsByBoundary d := by
  unfold split_at_gaps gapsByBoundary
  simp only []
  refine congrArg _ (List.filter_congr ?_)
  intro i hi
  rw [decide_eq_decide]
  constructor
  · intro hne heq
    exact hne (by rw [heq]; ring)
  · intro hne hsub
    exact hne (by linarith [sub_eq_zero.mp hsub])

/-- C5 witness: the theorem applied to the constructed domain
`[(0,1),(2,3),(5,6)]`, whose returned gaps are `(1,2)` and `(3,5)`. -/
theorem split_at_gaps_gap_rule_inst :
    (split_at_gaps ⟨"g", 3, [0, 2, 5], [1, 3, 6], []⟩).2 = [(1, 2), (3, 5)] := by
  have h := split_at_gaps_gap_rule "g" [0, 2, 5] [1, 3, 6]
    ⟨"g", 3, [0, 2, 5], [1, 3, 6], []⟩ (by with_unfolding_all decide)
  exact h.trans (by with_unfolding_all decide)

/-- C4: evaluation of `split_at_gaps` at the failing input of the claim,
the constructed domain `[(0,1),(1,2),(3,4)]`: the code returns the gap
`(2,3)` as the claim states, but the subdomains `[(1,2),(3,4)]` — the
first subdomain starts at `from_depths[1] = 1`, not at the very first
`from_depth = 0`, because the code prepends sentinel `0` (rather than
`-1`) to the gap indices and then reads `from_depths[0 + 1]`. -/
theorem split_at_gaps_first_subdomain_eval :
    (mkIntervalDomain "d" [0, 1, 3] [1, 2, 4]).map split_at_gaps =
      .ok ([(1, 2), (3, 4)], [(2, 3)]) ∧
    (mkIntervalDomain "d" [0, 1, 2] [1, 2, 3]).map split_at_gaps =
      .ok ([(1, 3)], []) := by
  with_unfolding_all decide

/-- `pyboreholes.domains.SamplingDomain`.  Modelled from the spec:
`sampling_domain.py` is not under src/; per the data model a
SamplingDomain is a named sequence of N discrete point-sample depths with
one value per depth for each attached property, and per the conversion
contract it does not re-validate depth monotonicity on construction. -/
structure SamplingDomain where
  name : String
  depths : List ℚ
  properties : List (String × List ℚ)
deriving DecidableEq, Repr

/-- `IntervalDomain.to_sampling_domain`: defaults the name to the source
name, computes the new depths by the selected rule — `'midpoint'` is
`(from_depths + to_depths) / 2`, `'from'` and `'to'` reuse the
corresponding bound — raises `ValueError` naming any other method string,
and hands the source properties over to the new domain as a shallow copy
(`self.properties.copy()`). -/
def to_sampling_domain (d : IntervalDomain) (name : Option String)
    (depths : String) : Except PyErr SamplingDomain :=
  let nm := name.getD d.name
  if depths = "midpoint" then
    .ok ⟨nm, List.zipWith (fun f t => (f + t) / 2) d.from_depths d.to_depths,
      d.properties⟩
  else if depths = "from" then
    .ok ⟨nm, d.from_depths, d.properties⟩
  else if depths = "to" then
    .ok ⟨nm, d.to_depths, d.properties⟩
  else
    .error (.valueError ("Unknown depth conversion method " ++ depths))

/-- C7 (amended): for every constructed domain the conversion yields a
SamplingDomain of the same length N with one depth per interval —
`(from + to) / 2` under `'midpoint'`, the start depths under `'from'`,
the end depths under `'to'` — but a single-interval domain such as
`(2, 4)` cannot be constructed (see the counterexample), so the
single-interval example is replaced by the two-interval domain
`[(2,4),(4,6)]`, where the three rules yield `[3, 5]`, `[2, 4]` and
`[4, 6]`. -/
theorem to_sampling_domain_rules (name : String) (f t : List ℚ)
    (d : IntervalDomain) (nm : Option String)
    (h : mkIntervalDomain name f t = .ok d) :
    to_sampling_domain d nm "midpoint" =
      .ok ⟨nm.getD name, List.zipWith (fun a b => (a + b) / 2) f t, []⟩ ∧
    to_sampling_domain d nm "from" = .ok ⟨nm.getD name, f, []⟩ ∧
    to_sampling_domain d nm "to" = .ok ⟨nm.getD name, t, []⟩ ∧
    (List.zipWith (fun a b => (a + b) / 2) f t).length = f.length := by
  obtain ⟨hd, ⟨hlen, _⟩, _⟩ := valid_of_mk_ok h
  subst hd
  refine ⟨rfl, rfl, rfl, ?_⟩
  rw [List.length_zipWith, hlen, Nat.min_self]

/-- C7 witness: the theorem applied to the two-interval domain
`[(2,4),(4,6)]` — midpoint depths `[3, 5]`, from-depths `[2, 4]`,
to-depths `[4, 6]`, each of length 2. -/
theorem to_sampling_domain_rules_inst :
    to_sampling_domain ⟨"x", 2, [2, 4], [4, 6], []⟩ none "midpoint" =
      .ok ⟨"x", [3, 5], []⟩ ∧
    to_sampling_domain ⟨"x", 2, [2, 4], [4, 6], []⟩ none "from" =
      .ok ⟨"x", [2, 4], []⟩ ∧
    to_sampling_domain ⟨"x", 2, [2, 4], [4, 6], []⟩ none "to" =
      .ok ⟨"x", [4, 6], []⟩ := by
  have h := to_sampling_domain_rules "x" [2, 4] [4, 6]
    ⟨"x", 2, [2, 4], [4, 6], []⟩ none (by with_unfolding_all decide)
  exact ⟨h.1.trans (by with_unfolding_all decide), h.2.1, h.2.2.1⟩

/-- C7 counterexample: the single interval `(2, 4)` of the claim cannot
be constructed at all — `IntervalDomain` construction raises on a
one-interval input — so no sampling conversion of it exists. -/
theorem single_interval_not_constructible :
    mkIntervalDomain "x" [2] [4] = .error .gradientShapeError := by
  with_unfolding_all decide

/-- `borehole_analysis.plotting.plot_difference`, reduced to its
orientation dispatch: the matplotlib drawing calls of the two recognised
branches only have graphical side effects and are elided; the observable
control flow is the branch selection and the terminal
`raise ValueError`.  CPython interns the short string literals used at
call sites, so the `orientation is 'horizontal'` identity tests behave as
string equality for the literal values modelled here. -/
def plot_difference (orientation : String) : Except PyErr Unit :=
  if orientation = "horizontal" then .ok ()
  else if orientation = "vertical" then .ok ()
  else
    .error (.valueError
      "Argument `orientation` must be \"horizontal\" or vertical\"")

/-- C8: every depth-conversion method string other than `'midpoint'`,
`'from'` and `'to'` makes `to_sampling_domain` fail with the
unsupported-conversion error (`ValueError` in the code, the
`UnsupportedConversionError` of the spec taxonomy) whose message names
the invalid method string; likewise every plot-orientation string other
than `'horizontal'` and `'vertical'` makes `plot_difference` fail with
its unsupported-orientation `ValueError`. -/
theorem unsupported_conversion_errors (d : IntervalDomain) (nm : Option String)
    (s o : String) (hs1 : s ≠ "midpoint") (hs2 : s ≠ "from") (hs3 : s ≠ "to")
    (ho1 : o ≠ "horizontal") (ho2 : o ≠ "vertical") :
    to_sampling_domain d nm s =
      .error (.valueError ("Unknown depth conversion method " ++ s)) ∧
    plot_difference o =
      .error (.valueError
        "Argument `orientation` must be \"horizontal\" or vertical\"") := by
  constructor
  · unfold to_sampling_domain
    rw [if_neg hs1, if_neg hs2, if_neg hs3]
  · unfold plot_difference
    rw [if_neg ho1, if_neg ho2]

/-- C8 witness: the theorem applied at the method string `"banana"` and
the orientation string `"diagonal"`. -/
theorem unsupported_conversion_errors_inst :
    to_sampling_domain ⟨"w8", 2, [0, 2], [1, 3], []⟩ none "banana" =
      .error (.valueError "Unknown depth conversion method banana") ∧
    plot_difference "diagonal" =
      .error (.valueError
        "Argument `orientation` must be \"horizontal\" or vertical\"") :=
  unsupported_conversion_errors ⟨"w8", 2, [0, 2], [1, 3], []⟩ none
    "banana" "diagonal" (by decide) (by decide) (by decide) (by decide) (by decide)

/-- A value a keyword argument of `Metadata.__init__` can carry in this
model: a reference to a `MetadataRegistry` object, identified by a
numeric object id, or any other scalar value. -/
inductive PyVal where
  | registryRef (rid : Nat)
  | scalar (s : String)
deriving DecidableEq, Repr

/-- The registry objects of the process: object id ↦ the instance
identities registered with that object so far, in registration order.
Object id 0 is `Metadata.registry`, the single class-attribute
`MetadataRegistry()` created once when the class body runs and therefore
shared by every instance whose lookup of `registry` reaches the class. -/
abbrev RegMap := List (Nat × List Nat)

/-- The object id of the class-level `Metadata.registry`. -/
def classRegistry : Nat := 0

/-- The contents of one registry object (empty when never written). -/
def getReg (m : RegMap) (rid : Nat) : List Nat := (m.lookup rid).getD []

/-- Replace the contents of one registry object. -/
def setReg : RegMap → Nat → List Nat → RegMap
  | [], rid, v => [(rid, v)]
  | (r, l) :: rest, rid, v =>
    if r = rid then (r, v) :: rest else (r, l) :: setReg rest rid v

/-- `MetadataRegistry.register`.  Modelled from the spec: `registry.py`
is not under src/; per the design notes the registry is a process-wide
identity map deduplicating records by identity, so registering keeps an
already-present identity and appends an unseen one. -/
def registerInst (m : RegMap) (rid : Nat) (inst : Nat) : RegMap :=
  setReg m rid
    (if inst ∈ getReg m rid then getReg m rid else getReg m rid ++ [inst])

/-- `Metadata.__init__` for the instance with identity `inst`: after
storing ident, tree and type it runs `setattr(self, attrib, value)` for
every keyword argument and only then calls
`self.registry.register(self)`.  Python attribute lookup finds an
instance attribute before the class attribute, so a keyword argument
named `registry` makes the final call register the instance with the
supplied registry object instead of the shared class registry, and a
non-registry value there makes the `.register` access raise. -/
def constructMetadata (m : RegMap) (inst : Nat)
    (kwargs : List (String × PyVal)) : Except PyErr RegMap :=
  match kwargs.lookup "registry" with
  | some (.registryRef r) => .ok (registerInst m r inst)
  | some (.scalar _) => .error (.attributeError "register")
  | none => .ok (registerInst m classRegistry inst)

/-- A sequence of `Metadata` constructions run in order, stopping at the
first failure.  Each element pairs the new instance identity with the
keyword arguments of its construction. -/
def runConstructions : RegMap → List (Nat × List (String × PyVal)) →
    Except PyErr RegMap
  | m, [] => .ok m
  | m, s :: rest =>
    match constructMetadata m s.1 s.2 with
    | .ok m2 => runConstructions m2 rest
    | .error e => .error e

theorem getReg_setReg : ∀ (m : RegMap) (rid : Nat) (v : List Nat) (r : Nat),
    getReg (setReg m rid v) r = if r = rid then v else getReg m r
  | [], rid, v, r => by
    by_cases hr : r = rid
    · subst hr
      simp [getReg, setReg, List.lookup_cons]
    · rw [if_neg hr]
      unfold setReg getReg
      rw [List.lookup_nil, List.lookup_cons,
        show (r == rid) = false from beq_eq_false_iff_ne.mpr hr]
      rfl
  | (k, l) :: rest, rid, v, r => by
    by_cases hk : k = rid
    · subst hk
      by_cases hr : r = k
      · subst hr
        simp [getReg, setReg, List.lookup_cons]
      · unfold setReg getReg
        rw [if_pos rfl, if_neg hr, List.lookup_cons, List.lookup_cons,
          show (r == k) = false from beq_eq_false_iff_ne.mpr hr]
    · unfold setReg
      rw [if_neg hk]
      by_cases hr : r = k
      · subst hr
        rw [if_neg hk]
        unfold getReg
        rw [List.lookup_cons, List.lookup_cons]
        simp
      · unfold getReg
        rw [List.lookup_cons, List.lookup_cons,
          show (r == k) = false from beq_eq_false_iff_ne.mpr hr]
        have := getReg_setReg rest rid v r
        unfold getReg at this
        exact this

theorem register_self {m : RegMap} {rid inst : Nat} :
    inst ∈ getReg (registerInst m rid inst) rid := by
  unfold registerInst
  rw [getReg_setReg, if_pos rfl]
  by_cases h : inst ∈ getReg m rid
  · rw [if_pos h]; exact h
  · rw [if_neg h]; exact List.mem_append_right _ (List.mem_singleton.mpr rfl)

theorem register_mono {m : RegMap} {rid inst r i : Nat}
    (hi : i ∈ getReg m r) : i ∈ getReg (registerInst m rid inst) r := by
  unfold registerInst
  rw [getReg_setReg]
  by_cases hr : r = rid
  · subst hr
    rw [if_pos rfl]
    by_cases h : inst ∈ getReg m r
    · rw [if_pos h]; exact hi
    · rw [if_neg h]; exact List.mem_append_left _ hi
  · rw [if_neg hr]; exact hi

theorem runConstructions_mono :
    ∀ (steps : List (Nat × List (String × PyVal))) (m m' : RegMap),
      runConstructions m steps = .ok m' →
      ∀ r i, i ∈ getReg m r → i ∈ getReg m' r
  | [], m, m', h => by cases h; exact fun r i hi => hi
  | s :: rest, m, m', h => by
    unfold runConstructions at h
    cases hc : constructMetadata m s.1 s.2 with
    | error e => rw [hc] at h; cases h
    | ok m2 =>
      rw [hc] at h
      intro r i hi
      refine runConstructions_mono rest m2 m' h r i ?_
      unfold constructMetadata at hc
      cases hl : s.2.lookup "registry" with
      | none => rw [hl] at hc; cases hc; exact register_mono hi
      | some v =>
        rw [hl] at hc
        cases v with
        | registryRef rr => cases hc; exact register_mono hi
        | scalar str => cases hc

theorem run_registers :
    ∀ (steps : List (Nat × List (String × PyVal))) (m st : RegMap),
      runConstructions m steps = .ok st →
      ∀ p ∈ steps,
        (p.2.lookup "registry" = none → p.1 ∈ getReg st classRegistry) ∧
        (∀ r, p.2.lookup "registry" = some (.registryRef r) →
          p.1 ∈ getReg st r)
  | [], _, _, _ => by simp
  | s :: rest, m, st, h => by
    unfold runConstructions at h
    cases hc : constructMetadata m s.1 s.2 with
    | error e => rw [hc] at h; cases h
    | ok m2 =>
      rw [hc] at h
      intro p hp
      rcases List.mem_cons.mp hp with rfl | hp2
      · constructor
        · intro hnone
          unfold constructMetadata at hc
          rw [hnone] at hc
          cases hc
          exact runConstructions_mono rest _ _ h _ _ register_self
        · intro r hr
          unfold constructMetadata at hc
          rw [hr] at hc
          cases hc
          exact runConstructions_mono rest _ _ h _ _ register_self
      · exact run_registers rest m2 st h p hp2

/-- C9 (amended): `Metadata.registry` is one class-level object created
once and shared by all instances; every successful sequence of
constructions registers each instance in the registry that
`self.registry` resolves to at registration time — the shared class
registry for every instance constructed without a `registry` keyword
argument, but the supplied per-instance registry object when the keyword
arguments contain one, because the `setattr` loop runs before
`self.registry.register(self)` and instance attributes shadow the class
attribute. -/
theorem metadata_registration_targets
    (steps : List (Nat × List (String × PyVal))) (st : RegMap)
    (h : runConstructions [] steps = .ok st) :
    ∀ p ∈ steps,
      (p.2.lookup "registry" = none → p.1 ∈ getReg st classRegistry) ∧
      (∀ r, p.2.lookup "registry" = some (.registryRef r) →
        p.1 ∈ getReg st r) :=
  run_registers steps [] st h

/-- C9 witness: two constructions without a `registry` keyword argument,
both of which end registered in the shared class registry. -/
theorem metadata_registration_targets_inst :
    1 ∈ getReg [(0, [1, 2])] classRegistry ∧
    2 ∈ getReg [(0, [1, 2])] classRegistry := by
  have h := metadata_registration_targets
    [(1, []), (2, [("color", PyVal.scalar "red")])] [(0, [1, 2])] (by decide)
  exact ⟨(h (1, []) (by decide)).1 rfl,
    (h (2, [("color", PyVal.scalar "red")]) (by decide)).1 rfl⟩

/-- C9 counterexample: an instance constructed with a `registry` keyword
argument ends registered only in the supplied registry object — the
shared class registry stays empty, so not every constructed instance is
registered in the single class-level registry. -/
theorem registry_kwarg_shadows_class_registry :
    runConstructions [] [(7, [("registry", PyVal.registryRef 3)])] =
      .ok [(3, [7])] ∧
    getReg [(3, [7])] classRegistry = [] ∧ getReg [(3, [7])] 3 = [7] := by
  decide

/-- An XML tree as seen through lxml: an element with a namespace-prefixed
tag and an ordered list of children, or a text node. -/
inductive Xml where
  | text (s : String)
  | elem (tag : String) (children : List Xml)

mutual
/-- One node of the evaluation of the XPath `.//gsml:value/text()` of
`get_value`: the text nodes whose parent is a `gsml:value` element, in
document order.  `parentIsValue` records whether the parent of the node
is a `gsml:value` element. -/
def collectNode (parentIsValue : Bool) : Xml → List String
  | .text s => if parentIsValue then [s] else []
  | .elem tag children => collectList (tag == "gsml:value") children

/-- `collectNode` over a sibling list, in document order. -/
def collectList (parentIsValue : Bool) : List Xml → List String
  | [] => []
  | c :: rest => collectNode parentIsValue c ++ collectList parentIsValue rest
end

/-- `pysiss.vocabulary.gsml.unmarshallers.get_value`: evaluates
`elem.xpath('.//gsml:value/text()')` — the text children of the proper
`gsml:value` descendants of the element, in document order; the element
itself is not a descendant of itself, so its own text children are never
selected — and returns the first result when the list is nonempty and
`None` otherwise. -/
def get_value (e : Xml) : Option String :=
  match e with
  | .text _ => none
  | .elem _ children =>
    match collectList false children with
    | [] => none
    | t :: _ => some t

/-- Whether a node is a text node. -/
def isTextNode : Xml → Bool
  | .text _ => true
  | .elem _ _ => false

mutual
/-- Whether the subtree rooted at a node contains a `gsml:value` element
(the node itself included) that has a text child. -/
def hasValueTextNode : Xml → Bool
  | .text _ => false
  | .elem tag children =>
    ((tag == "gsml:value") && children.any isTextNode) ||
      hasValueTextList children

/-- `hasValueTextNode` over a sibling list. -/
def hasValueTextList : List Xml → Bool
  | [] => false
  | c :: rest => hasValueTextNode c || hasValueTextList rest
end

mutual
/-- The first `gsml:value` element of a subtree in document order, the
root included (the root of a subtree precedes its descendants). -/
def firstValueElem : Xml → Option Xml
  | .text _ => none
  | .elem tag children =>
    if tag == "gsml:value" then some (.elem tag children)
    else firstValueElemList children

/-- `firstValueElem` over a sibling list. -/
def firstValueElemList : List Xml → Option Xml
  | [] => none
  | c :: rest =>
    match firstValueElem c with
    | some v => some v
    | none => firstValueElemList rest
end

/-- The first `gsml:value` proper descendant of an element in document
order — what the claim calls "the first gsml:value descendant". -/
def firstValueDescendant : Xml → Option Xml
  | .text _ => none
  | .elem _ children => firstValueElemList children

/-- The first text child of an element. -/
def firstTextChild : Xml → Option String
  | .text _ => none
  | .elem _ children =>
    children.findSome? (fun c => match c with
      | .text s => some s
      | .elem _ _ => none)

theorem collect_empty_aux :
    ∀ (fuel : Nat) (cs : List Xml), sizeOf cs ≤ fuel → ∀ q : Bool,
      (collectList q cs = [] ↔
        (hasValueTextList cs = false ∧
          (q = true → cs.any isTextNode = false))) := by
  intro fuel
  induction fuel with
  | zero =>
    intro cs hcs q
    cases cs <;> simp at hcs
  | succ n ih =>
    intro cs hcs q
    cases cs with
    | nil => simp [collectList, hasValueTextList]
    | cons c rest =>
      have hrest : sizeOf rest ≤ n := by
        cases c <;> simp at hcs <;> omega
      cases c with
      | text s =>
        rw [show collectList q (Xml.text s :: rest) =
          (if q then [s] else []) ++ collectList q rest from rfl]
        rw [show hasValueTextList (Xml.text s :: rest) =
          hasValueTextList rest from by
            rw [show hasValueTextList (Xml.text s :: rest) =
              (hasValueTextNode (Xml.text s) || hasValueTextList rest) from rfl]
            rw [show hasValueTextNode (Xml.text s) = false from rfl]
            simp]
        rw [show (Xml.text s :: rest).any isTextNode = true from by
          simp [isTextNode]]
        rw [List.append_eq_nil]
        constructor
        · rintro ⟨h1, h2⟩
          have hq : q = false := by
            by_cases hqq : q = true
            · rw [if_pos hqq] at h1; simp at h1
            · simpa using hqq
          subst hq
          exact ⟨((ih rest hrest false).mp h2).1, by simp⟩
        · rintro ⟨h1, h2⟩
          have hq : q = false := by
            by_cases hqq : q = true
            · exact absurd (h2 hqq) (by simp)
            · simpa using hqq
          subst hq
          exact ⟨by simp, (ih rest hrest false).mpr ⟨h1, by simp⟩⟩
      | elem tg cc =>
        have hcc : sizeOf cc ≤ n := by
          simp at hcs; omega
        rw [show collectList q (Xml.elem tg cc :: rest) =
          collectList (tg == "gsml:value") cc ++ collectList q rest from rfl]
        rw [List.append_eq_nil]
        rw [ih cc hcc (tg == "gsml:value"), ih rest hrest q]
        rw [show hasValueTextList (Xml.elem tg cc :: rest) =
          ((((tg == "gsml:value") && cc.any isTextNode) ||
            hasValueTextList cc) || hasValueTextList rest) from rfl]
        rw [show (Xml.elem tg cc :: rest).any isTextNode =
          rest.any isTextNode from by simp [isTextNode]]
        constructor
        · rintro ⟨⟨hc1, hc2⟩, hr1, hr2⟩
          refine ⟨?_, hr2⟩
          rw [Bool.or_eq_false_iff, Bool.or_eq_false_iff]
          refine ⟨⟨?_, hc1⟩, hr1⟩
          by_cases htg : (tg == "gsml:value") = true
          · rw [htg, Bool.true_and]
            exact hc2 htg
          · rw [Bool.not_eq_true] at htg
            rw [htg, Bool.false_and]
        · rintro ⟨hfalse, hany⟩
          rw [Bool.or_eq_false_iff, Bool.or_eq_false_iff] at hfalse
          obtain ⟨⟨hA, hB⟩, hC⟩ := hfalse
          refine ⟨⟨hB, ?_⟩, hC, hany⟩
          intro htg
          rw [htg, Bool.true_and] at hA
          exact hA

/-- C10 (amended): `get_value` returns the first entry, in document
order, of the text nodes of the gsml:value descendants of the element
(`result[0]` of the XPath evaluation) whenever at least one gsml:value
descendant has a text child — which may be the text of a later
gsml:value descendant when the first one has no text — returns `None`
rather than raising exactly when no gsml:value descendant has a text
child, and never depends on the tag of the element itself. -/
theorem get_value_doc_order (tag : String) (cs : List Xml) :
    get_value (Xml.elem tag cs) = (collectList false cs).head? ∧
    (get_value (Xml.elem tag cs) = none ↔ hasValueTextList cs = false) ∧
    (∀ tag2, get_value (Xml.elem tag cs) = get_value (Xml.elem tag2 cs)) := by
  refine ⟨?_, ?_, fun tag2 => rfl⟩
  · show (match collectList false cs with
      | [] => none | t :: _ => some t) = (collectList false cs).head?
    cases collectList false cs <;> rfl
  · show (match collectList false cs with
      | [] => none | t :: _ => some t) = none ↔ hasValueTextList cs = false
    cases hc : collectList false cs with
    | nil =>
      constructor
      · intro _
        exact ((collect_empty_aux (sizeOf cs) cs le_rfl false).mp hc).1
      · intro _; rfl
    | cons t rest =>
      constructor
      · intro h; cases h
      · intro hfalse
        have h2 := (collect_empty_aux (sizeOf cs) cs le_rfl false).mpr
          ⟨hfalse, by simp⟩
        rw [hc] at h2
        cases h2

/-- C10 witness: the theorem applied to a host element with one
gsml:value child holding the text `"x"`. -/
theorem get_value_doc_order_inst :
    get_value (Xml.elem "host" [Xml.elem "gsml:value" [Xml.text "x"]]) =
      some "x" :=
  (get_value_doc_order "host" [Xml.elem "gsml:value" [Xml.text "x"]]).1.trans rfl

/-- An element whose first gsml:value descendant has no text while the
second one holds the text `"a"`. -/
def gsmlExample : Xml :=
  Xml.elem "host"
    [Xml.elem "gsml:value" [], Xml.elem "gsml:value" [Xml.text "a"]]

/-- C10 counterexample: on `gsmlExample` the element has a gsml:value
descendant with text, yet `get_value` does not return the text of the
first gsml:value descendant in document order — that descendant is the
empty gsml:value element, which has no text at all; `get_value` returns
the text of the second one. -/
theorem get_value_first_descendant_refuted :
    get_value gsmlExample = some "a" ∧
    firstValueDescendant gsmlExample = some (Xml.elem "gsml:value" []) ∧
    (firstValueDescendant gsmlExample).bind firstTextChild = none :=
  ⟨rfl, rfl, rfl⟩
